import Mathlib

/-!
Shallow embedding of the `files` tree walker (src/files.go).

The Go source contains two variants of the same program: a bounded variant
whose walk closure extends the ignore context with `append` and bounds
concurrency with a semaphore, and an unbounded variant whose closure does an
explicit copy-on-extend and spawns one goroutine per directory.  Both share
the same sequential walk skeleton, so we embed one walker `walkList`
parameterised by the per-entry closure (`walkFnB` for the bounded variant,
`walkFnU` for the unbounded one) and thread the shared state (counter `n`,
result stream `emitted`) explicitly.  The `visited` field is instrumentation
recording every path the walk function was applied to; the Go code has no
such list but the set of walk-function invocations is well defined.

External collaborators (the go-gitignore pattern compiler and the regexp
engine) are modelled as opaque boolean functions supplied with the input:
a directory node carries the result of parsing its `.gitignore` (`none`
meaning "file missing or unparsable", exactly the `err != nil` outcome of
`gitignore.NewGitIgnore`), and the static ignore regexp is a `String → Bool`
field of the configuration.
-/

/-- A compiled gitignore-style matcher (go-gitignore collaborator):
`Match(path, isDir)`. -/
abbrev Matcher := String → Bool → Bool

/-- The `ignoreMatchers` slice (files.go:63).  A slot is `none` when the
`gitignore.IgnoreMatcher` interface value is nil. -/
abbrev ignoreMatchers := List (Option Matcher)

/-- `ignoreMatchers.Match` (files.go:65-75): iterate the matchers; a nil
matcher makes the loop return false at once. -/
def ignoreMatchers.Match : ignoreMatchers → String → Bool → Bool
  | [], _, _ => false
  | none :: _, _, _ => false
  | some m :: rest, path, isDir =>
      if m path isDir then true else ignoreMatchers.Match rest path isDir

/-- The error values the walk can produce: `filepath.SkipDir`, the
`maxError` sentinel ("Overflow max count", files.go:33), and an I/O error
from `ioutil.ReadDir`. -/
inductive GoErr where
  | skipDir
  | maxError
  | ioError (msg : String)
deriving DecidableEq

/-- Configuration read by the walker: the `-g` flag, the `-M` flag and the
compiled `-i` regexp (modelled as a name predicate). -/
structure Config where
  careGitignore : Bool
  maxfiles : Int
  ignorere : String → Bool

/-- `maxcount` (files.go:32 and 223-225): `int64` max unless `-M` is
positive. -/
def Config.maxcount (cfg : Config) : Int :=
  if cfg.maxfiles > 0 then cfg.maxfiles else 2 ^ 63 - 1

/-- Two's-complement wrap of a 64-bit signed integer, for the `n++` on the
`int64` counter. -/
def wrap64 (x : Int) : Int :=
  (x + 2 ^ 63) % 2 ^ 64 - 2 ^ 63

/-- The mutable state shared by the walk: the emission counter `n`, the
contents pushed on the channel `q` in order, and (instrumentation) the paths
the walk function was applied to. -/
structure WState where
  n : Int
  emitted : List String
  visited : List String
deriving DecidableEq

/-- What the walk closure reads from a directory entry: `fi.Name()`,
`fi.IsDir()`, `fi.isSymlink()` (files.go:59-61), and the outcome of
`gitignore.NewGitIgnore(filepath.Join(path, ".gitignore"))` for the entry's
path (`none` = error). -/
structure EntryInfo where
  name : String
  isDir : Bool
  symlink : Bool
  gitign : Option Matcher

/-- Suffix test on strings, used to model compiled gitignore patterns such
as `*.log` (the pattern semantics belong to the go-gitignore collaborator;
only this concrete instance is needed for the spec scenario). -/
def strEndsWith (s suf : String) : Bool :=
  s.data.reverse.take suf.data.length == suf.data.reverse

/-- `filepath.Join` on clean slash paths; `Join("", x) = Join(".", x) = x`
as in Go. -/
def joinPath (p n : String) : String :=
  if p = "" then n else if p = "." then n else p ++ "/" ++ n

/-- Ignore-context extension of the bounded variant (files.go:116-120):
`matchers = append(matchers, matcher)` when the entry is a real directory,
`careGitignore` is on and the rule file parses; otherwise the inherited
slice value. -/
def extendB (cfg : Config) (fi : EntryInfo) (matchers : ignoreMatchers) :
    ignoreMatchers :=
  if cfg.careGitignore && fi.isDir && !fi.symlink then
    match fi.gitign with
    | some m => matchers ++ [some m]
    | none => matchers
  else matchers

/-- Ignore-context extension of the unbounded variant (files.go:371-381):
`var newMatchers ignoreMatchers` starts nil, is set to a copy-plus-one on a
successful parse, to the inherited slice on a failed parse, and is left nil
(the empty else branch) for every non-directory entry. -/
def extendU (cfg : Config) (fi : EntryInfo) (matchers : ignoreMatchers) :
    ignoreMatchers :=
  if cfg.careGitignore && fi.isDir && !fi.symlink then
    match fi.gitign with
    | some m => matchers ++ [some m]
    | none => matchers
  else []

/-- The exclusion test (files.go:122 and 383):
`ignorere.MatchString(fi.Name()) || *careGitignore && matchers.Match(path, fi.IsDir())`. -/
def excludedTest (cfg : Config) (path : String) (fi : EntryInfo)
    (matchers : ignoreMatchers) : Bool :=
  cfg.ignorere fi.name ||
    (cfg.careGitignore && ignoreMatchers.Match matchers path fi.isDir)

/-- The emit branch for a non-directory entry (files.go:129-141): `n++`; if
`n > maxcount` return `maxError` without pushing; otherwise push
`filepath.ToSlash(path)` (identity on slash paths). -/
def emitStep (cfg : Config) (path : String) (matchers : ignoreMatchers)
    (st : WState) : ignoreMatchers × Option GoErr × WState :=
  let n := wrap64 (st.n + 1)
  if n > cfg.maxcount then
    (matchers, some GoErr.maxError, { st with n := n })
  else
    (matchers, none, { st with n := n, emitted := st.emitted ++ [path] })

/-- `walkFunc` (files.go:77): path, entry info, inherited matchers; returns
the matchers for the children and an optional error, and updates the shared
state. -/
abbrev WalkFn :=
  String → EntryInfo → ignoreMatchers → WState →
    ignoreMatchers × Option GoErr × WState

/-- The walk closure of the bounded variant (files.go:113-143). -/
def walkFnB (cfg : Config) : WalkFn := fun path fi matchers st =>
  let matchers := extendB cfg fi matchers
  if excludedTest cfg path fi matchers then
    (matchers, if fi.isDir then some GoErr.skipDir else none, st)
  else if !fi.isDir then
    emitStep cfg path matchers st
  else
    (matchers, none, st)

/-- The walk closure of the unbounded variant (files.go:368-404). -/
def walkFnU (cfg : Config) : WalkFn := fun path fi matchers st =>
  let matchers := extendU cfg fi matchers
  if excludedTest cfg path fi matchers then
    (matchers, if fi.isDir then some GoErr.skipDir else none, st)
  else if !fi.isDir then
    emitStep cfg path matchers st
  else
    (matchers, none, st)

/-- A directory tree in first-child / next-sibling form, so that every
recursion below is structural.  A `fdir` node carries the parse outcome of
its `.gitignore` (`gitign`), the outcome of `ioutil.ReadDir` on it
(`readErr = some msg` means the listing fails), its child chain and its next
sibling. -/
inductive FS where
  | fnil
  | ffile (name : String) (symlink : Bool) (next : FS)
  | fdir (name : String) (symlink : Bool) (gitign : Option Matcher)
      (readErr : Option String) (children : FS) (next : FS)

/-- Sequential semantics of `walk` (files.go:156-196 and 417-448) applied to
a sibling chain: for each entry, apply the walk function; absorb `SkipDir`
for directories; do not descend into symlinks or files; list the directory
and recurse over the children with the extended matchers; each child error
overwrites the previous one (`ferr = err`), so the chain returns the last
non-nil error after every sibling has been processed. -/
def walkList (wf : WalkFn) : String → FS → ignoreMatchers → WState →
    Option GoErr × WState
  | _, .fnil, _, st => (none, st)
  | parent, .ffile name sym next, matchers, st =>
      let path := joinPath parent name
      let st1 := { st with visited := st.visited ++ [path] }
      let r := wf path ⟨name, false, sym, none⟩ matchers st1
      let thisErr := r.2.1
      let rest := walkList wf parent next matchers r.2.2
      (if rest.1.isSome then rest.1 else thisErr, rest.2)
  | parent, .fdir name sym gitign readErr children next, matchers, st =>
      let path := joinPath parent name
      let st1 := { st with visited := st.visited ++ [path] }
      let r := wf path ⟨name, true, sym, gitign⟩ matchers st1
      let this :=
        match r.2.1 with
        | some e => (if e = GoErr.skipDir then none else some e, r.2.2)
        | none =>
            if sym then (none, r.2.2)
            else
              match readErr with
              | some msg => (some (GoErr.ioError msg), r.2.2)
              | none => walkList wf path children r.1 r.2.2
      let rest := walkList wf parent next matchers this.2
      (if rest.1.isSome then rest.1 else this.1, rest.2)

/-- `filesAsync` of the bounded variant (files.go:79-154), run to
completion: walk the root (a directory that passed the `Lstat` check) with
the global gitignore matchers, starting from a zero counter and an empty
stream; the first component is the terminal error printed after the channel
closes, the `emitted` field of the second is the content of the channel. -/
def filesAsyncB (cfg : Config) (globalMs : ignoreMatchers) (root : FS) :
    Option GoErr × WState :=
  walkList (walkFnB cfg) "" root globalMs ⟨0, [], []⟩

/-- `filesAsync` of the unbounded variant (files.go:335-415), run to
completion. -/
def filesAsyncU (cfg : Config) (globalMs : ignoreMatchers) (root : FS) :
    Option GoErr × WState :=
  walkList (walkFnU cfg) "" root globalMs ⟨0, [], []⟩

/-- The depth-first list of non-excluded regular-file paths of a chain under
the bounded classifier: the files the walk would push with an unbounded
counter. -/
def matchingFiles (cfg : Config) : String → FS → ignoreMatchers → List String
  | _, .fnil, _ => []
  | parent, .ffile name sym next, matchers =>
      let path := joinPath parent name
      (if excludedTest cfg path ⟨name, false, sym, none⟩ matchers then []
       else [path]) ++ matchingFiles cfg parent next matchers
  | parent, .fdir name sym gitign _ children next, matchers =>
      let path := joinPath parent name
      let ms1 := extendB cfg ⟨name, true, sym, gitign⟩ matchers
      (if excludedTest cfg path ⟨name, true, sym, gitign⟩ ms1 then []
       else if sym then []
       else matchingFiles cfg path children ms1) ++
        matchingFiles cfg parent next matchers

/-- Every directory in the chain is readable. -/
def noReadErr : FS → Bool
  | .fnil => true
  | .ffile _ _ next => noReadErr next
  | .fdir _ _ _ readErr children next =>
      readErr.isNone && noReadErr children && noReadErr next

/-- Concatenation of sibling chains. -/
def chainAppend : FS → FS → FS
  | .fnil, t => t
  | .ffile name sym next, t => .ffile name sym (chainAppend next t)
  | .fdir name sym g r ch next, t => .fdir name sym g r ch (chainAppend next t)

/-- The paths of the top-level entries of a chain. -/
def chainPaths (parent : String) : FS → List String
  | .fnil => []
  | .ffile name _ next => joinPath parent name :: chainPaths parent next
  | .fdir name _ _ _ _ next => joinPath parent name :: chainPaths parent next

/-- A Go slice header as used for `ignoreMatchers` values: backing array
id, length, capacity. -/
structure GoSlice where
  arrId : Nat
  len : Nat
  cap : Nat
deriving DecidableEq

/-- A heap of backing arrays; a `none` cell is uninitialised spare
capacity.  Matchers are identified by name here, since claim C3 is about
aliasing of the slice storage, not about pattern semantics. -/
abbrev SliceHeap := List (List (Option String))

/-- The elements a slice header denotes. -/
def readSlice (h : SliceHeap) (s : GoSlice) : List (Option String) :=
  (h.getD s.arrId []).take s.len

/-- Go `append(matchers, matcher)` of one element, as in the bounded
variant (files.go:118): with spare capacity the element is written into the
shared backing array in place; otherwise a fresh array of doubled capacity
is allocated. -/
def goAppend (h : SliceHeap) (s : GoSlice) (x : String) :
    SliceHeap × GoSlice :=
  if s.len < s.cap then
    (h.set s.arrId ((h.getD s.arrId []).set s.len (some x)),
      ⟨s.arrId, s.len + 1, s.cap⟩)
  else
    (h ++ [readSlice h s ++ [some x] ++
        List.replicate ((if s.cap = 0 then 1 else 2 * s.cap) - (s.len + 1))
          none],
      ⟨h.length, s.len + 1, if s.cap = 0 then 1 else 2 * s.cap⟩)

/-- The copy-on-extend of the unbounded variant (files.go:374-376):
`make(..., len+1)`, `copy`, assign the last slot — always a fresh backing
array. -/
def copyExtend (h : SliceHeap) (s : GoSlice) (x : String) :
    SliceHeap × GoSlice :=
  (h ++ [readSlice h s ++ [some x]], ⟨h.length, s.len + 1, s.len + 1⟩)

/-- One hardware step of the non-atomic `n++` (files.go:130, with the
source comment "This is pseudo handling because this is not atomic"): a
goroutine (`tid`) first reads the shared counter into a register, then
writes back its register plus one, with int64 wrap. -/
inductive CtrStep where
  | read (tid : Bool)
  | write (tid : Bool)

/-- Run an interleaving of counter steps: `regs` holds each goroutine's
register, `n` the shared int64 counter. -/
def runCtr : List CtrStep → (Bool → Int) → Int → Int
  | [], _, n => n
  | .read t :: rest, regs, n =>
      runCtr rest (fun u => if u = t then n else regs u) n
  | .write t :: rest, regs, _ => runCtr rest regs (wrap64 (regs t + 1))

theorem wrap64_eq_self {x : Int} (h1 : -(2 ^ 63) ≤ x) (h2 : x ≤ 2 ^ 63 - 1) :
    wrap64 x = x := by
  have hm : (x + 2 ^ 63) % 2 ^ 64 = x + 2 ^ 63 :=
    Int.emod_eq_of_lt (by omega) (by omega)
  simp only [wrap64, hm]
  omega

theorem walkFnB_file (cfg : Config) (path name : String) (sym : Bool)
    (ms : ignoreMatchers) (st : WState) :
    walkFnB cfg path ⟨name, false, sym, none⟩ ms st =
      if excludedTest cfg path ⟨name, false, sym, none⟩ ms then (ms, none, st)
      else emitStep cfg path ms st := by
  simp [walkFnB, extendB]

theorem walkFnB_dir (cfg : Config) (path name : String) (sym : Bool)
    (g : Option Matcher) (ms : ignoreMatchers) (st : WState) :
    walkFnB cfg path ⟨name, true, sym, g⟩ ms st =
      if excludedTest cfg path ⟨name, true, sym, g⟩
          (extendB cfg ⟨name, true, sym, g⟩ ms) then
        (extendB cfg ⟨name, true, sym, g⟩ ms, some GoErr.skipDir, st)
      else (extendB cfg ⟨name, true, sym, g⟩ ms, none, st) := by
  simp only [walkFnB]
  split <;> rfl

theorem ifSome_self {α : Type} (x : Option α) :
    (if x.isSome then x else none) = x := by
  cases x <;> rfl

theorem ifSome_default {α : Type} (c : Prop) [Decidable c] (e : α) :
    (if (if c then some e else none).isSome then (if c then some e else none)
      else some e) = some e := by
  by_cases h : c <;> simp [h]

theorem stepB_file_ex {cfg : Config} {parent name : String} {sym : Bool}
    {next : FS} {ms : ignoreMatchers} {n0 : Int} {em0 vis0 : List String}
    (hex : excludedTest cfg (joinPath parent name) ⟨name, false, sym, none⟩ ms
      = true) :
    walkList (walkFnB cfg) parent (.ffile name sym next) ms ⟨n0, em0, vis0⟩ =
      walkList (walkFnB cfg) parent next ms
        ⟨n0, em0, vis0 ++ [joinPath parent name]⟩ := by
  simp only [walkList, walkFnB_file, hex, if_true, ifSome_self]

theorem stepB_file_over {cfg : Config} {parent name : String} {sym : Bool}
    {next : FS} {ms : ignoreMatchers} {n0 : Int} {em0 vis0 : List String}
    (hex2 : excludedTest cfg (joinPath parent name) ⟨name, false, sym, none⟩ ms
      = false)
    (hov : cfg.maxcount < wrap64 (n0 + 1)) :
    walkList (walkFnB cfg) parent (.ffile name sym next) ms ⟨n0, em0, vis0⟩ =
      ((if (walkList (walkFnB cfg) parent next ms
            ⟨wrap64 (n0 + 1), em0, vis0 ++ [joinPath parent name]⟩).1.isSome
        then (walkList (walkFnB cfg) parent next ms
            ⟨wrap64 (n0 + 1), em0, vis0 ++ [joinPath parent name]⟩).1
        else some GoErr.maxError),
       (walkList (walkFnB cfg) parent next ms
            ⟨wrap64 (n0 + 1), em0, vis0 ++ [joinPath parent name]⟩).2) := by
  simp only [walkList, walkFnB_file, hex2, Bool.false_eq_true, if_false,
    emitStep, hov, if_true]

theorem stepB_file_push {cfg : Config} {parent name : String} {sym : Bool}
    {next : FS} {ms : ignoreMatchers} {n0 : Int} {em0 vis0 : List String}
    (hex2 : excludedTest cfg (joinPath parent name) ⟨name, false, sym, none⟩ ms
      = false)
    (hov : ¬ cfg.maxcount < wrap64 (n0 + 1)) :
    walkList (walkFnB cfg) parent (.ffile name sym next) ms ⟨n0, em0, vis0⟩ =
      walkList (walkFnB cfg) parent next ms
        ⟨wrap64 (n0 + 1), em0 ++ [joinPath parent name],
          vis0 ++ [joinPath parent name]⟩ := by
  simp only [walkList, walkFnB_file, hex2, Bool.false_eq_true, if_false,
    emitStep, hov, ifSome_self]

theorem stepB_dir_ex {cfg : Config} {parent name : String} {sym : Bool}
    {g : Option Matcher} {re : Option String} {children next : FS}
    {ms : ignoreMatchers} {n0 : Int} {em0 vis0 : List String}
    (hex : excludedTest cfg (joinPath parent name) ⟨name, true, sym, g⟩
      (extendB cfg ⟨name, true, sym, g⟩ ms) = true) :
    walkList (walkFnB cfg) parent (.fdir name sym g re children next) ms
        ⟨n0, em0, vis0⟩ =
      walkList (walkFnB cfg) parent next ms
        ⟨n0, em0, vis0 ++ [joinPath parent name]⟩ := by
  simp only [walkList, walkFnB_dir, hex, if_true, ifSome_self]

theorem stepB_dir_sym {cfg : Config} {parent name : String}
    {g : Option Matcher} {re : Option String} {children next : FS}
    {ms : ignoreMatchers} {n0 : Int} {em0 vis0 : List String}
    (hex2 : excludedTest cfg (joinPath parent name) ⟨name, true, true, g⟩
      (extendB cfg ⟨name, true, true, g⟩ ms) = false) :
    walkList (walkFnB cfg) parent (.fdir name true g re children next) ms
        ⟨n0, em0, vis0⟩ =
      walkList (walkFnB cfg) parent next ms
        ⟨n0, em0, vis0 ++ [joinPath parent name]⟩ := by
  simp only [walkList, walkFnB_dir, hex2, Bool.false_eq_true, if_false,
    if_true, ifSome_self]

theorem stepB_dir_desc {cfg : Config} {parent name : String}
    {g : Option Matcher} {children next : FS} {ms : ignoreMatchers}
    {n0 : Int} {em0 vis0 : List String}
    (hex2 : excludedTest cfg (joinPath parent name) ⟨name, true, false, g⟩
      (extendB cfg ⟨name, true, false, g⟩ ms) = false) :
    walkList (walkFnB cfg) parent (.fdir name false g none children next) ms
        ⟨n0, em0, vis0⟩ =
      ((if (walkList (walkFnB cfg) parent next ms
            (walkList (walkFnB cfg) (joinPath parent name) children
              (extendB cfg ⟨name, true, false, g⟩ ms)
              ⟨n0, em0, vis0 ++ [joinPath parent name]⟩).2).1.isSome
        then (walkList (walkFnB cfg) parent next ms
            (walkList (walkFnB cfg) (joinPath parent name) children
              (extendB cfg ⟨name, true, false, g⟩ ms)
              ⟨n0, em0, vis0 ++ [joinPath parent name]⟩).2).1
        else (walkList (walkFnB cfg) (joinPath parent name) children
              (extendB cfg ⟨name, true, false, g⟩ ms)
              ⟨n0, em0, vis0 ++ [joinPath parent name]⟩).1),
       (walkList (walkFnB cfg) parent next ms
            (walkList (walkFnB cfg) (joinPath parent name) children
              (extendB cfg ⟨name, true, false, g⟩ ms)
              ⟨n0, em0, vis0 ++ [joinPath parent name]⟩).2).2) := by
  simp only [walkList, walkFnB_dir, hex2, Bool.false_eq_true, if_false]

/-- Characterisation of the sequential bounded walk on a readable chain when
the counter cannot wrap: the terminal error is `maxError` exactly when some
matching file pushes the counter past `maxcount`, the counter advances by
the number of matching files, and the stream receives the depth-first
matching files truncated at `maxcount`. -/
theorem walkB_char (cfg : Config) (t : FS) :
    ∀ (parent : String) (ms : ignoreMatchers) (n0 : Int)
      (em0 vis0 : List String),
    noReadErr t = true → 0 ≤ n0 →
    n0 + ((matchingFiles cfg parent t ms).length : Int) ≤ 2 ^ 63 - 1 →
    (walkList (walkFnB cfg) parent t ms ⟨n0, em0, vis0⟩).1 =
      (if 1 ≤ (matchingFiles cfg parent t ms).length ∧
          cfg.maxcount < n0 + ((matchingFiles cfg parent t ms).length : Int)
       then some GoErr.maxError else none) ∧
    (walkList (walkFnB cfg) parent t ms ⟨n0, em0, vis0⟩).2.n =
      n0 + ((matchingFiles cfg parent t ms).length : Int) ∧
    (walkList (walkFnB cfg) parent t ms ⟨n0, em0, vis0⟩).2.emitted =
      em0 ++ (matchingFiles cfg parent t ms).take (cfg.maxcount - n0).toNat := by
  induction t with
  | fnil =>
    intro parent ms n0 em0 vis0 hre h0 hbound
    simp [walkList, matchingFiles]
  | ffile name sym next ih =>
    intro parent ms n0 em0 vis0 hre h0 hbound
    have hre2 : noReadErr next = true := by simpa [noReadErr] using hre
    by_cases hex : excludedTest cfg (joinPath parent name)
        ⟨name, false, sym, none⟩ ms = true
    · rw [stepB_file_ex hex]
      simp only [matchingFiles, hex, if_true, List.nil_append] at hbound ⊢
      exact ih parent ms n0 em0 _ hre2 h0 hbound
    · have hex2 : excludedTest cfg (joinPath parent name)
          ⟨name, false, sym, none⟩ ms = false := by simpa using hex
      simp only [matchingFiles, hex2, Bool.false_eq_true, if_false,
        List.singleton_append, List.length_cons] at hbound ⊢
      have hlen0 : (0 : Int) ≤ ((matchingFiles cfg parent next ms).length : Int) :=
        Int.natCast_nonneg _
      have hb2 : n0 + ((matchingFiles cfg parent next ms).length : Int) + 1
          ≤ 2 ^ 63 - 1 := by
        push_cast at hbound
        omega
      have hw : wrap64 (n0 + 1) = n0 + 1 :=
        wrap64_eq_self (by omega) (by omega)
      by_cases hov : cfg.maxcount < n0 + 1
      · rw [stepB_file_over hex2 (by rw [hw]; exact hov), hw]
        obtain ⟨e1, e2, e3⟩ := ih parent ms (n0 + 1) em0
          (vis0 ++ [joinPath parent name]) hre2 (by omega) (by omega)
        refine ⟨?_, ?_, ?_⟩
        · rw [e1, if_pos (⟨by omega, by push_cast; omega⟩ :
            1 ≤ (matchingFiles cfg parent next ms).length + 1 ∧
              cfg.maxcount <
                n0 + (((matchingFiles cfg parent next ms).length + 1 : ℕ) : Int))]
          exact ifSome_default _ _
        · rw [e2]
          push_cast
          ring
        · rw [e3]
          have h1 : (cfg.maxcount - n0).toNat = 0 := by omega
          have h2 : (cfg.maxcount - (n0 + 1)).toNat = 0 := by omega
          rw [h1, h2]
          simp
      · rw [stepB_file_push hex2 (by rw [hw]; exact hov), hw]
        obtain ⟨e1, e2, e3⟩ := ih parent ms (n0 + 1)
          (em0 ++ [joinPath parent name]) (vis0 ++ [joinPath parent name])
          hre2 (by omega) (by omega)
        refine ⟨?_, ?_, ?_⟩
        · rw [e1]
          refine if_congr ?_ rfl rfl
          push_cast
          simp only [true_and]
          constructor
          · intro h
            omega
          · intro h
            omega
        · rw [e2]
          push_cast
          ring
        · rw [e3]
          have heq : (cfg.maxcount - n0).toNat
              = (cfg.maxcount - (n0 + 1)).toNat + 1 := by omega
          rw [heq, List.take_succ_cons]
          simp
  | fdir name sym gitign readErr children next ihc ihn =>
    intro parent ms n0 em0 vis0 hre h0 hbound
    simp only [noReadErr, Bool.and_eq_true, Option.isNone_iff_eq_none] at hre
    obtain ⟨⟨hrn, hrec⟩, hre2⟩ := hre
    subst hrn
    by_cases hex : excludedTest cfg (joinPath parent name)
        ⟨name, true, sym, gitign⟩ (extendB cfg ⟨name, true, sym, gitign⟩ ms)
        = true
    · rw [stepB_dir_ex hex]
      simp only [matchingFiles, hex, if_true, List.nil_append] at hbound ⊢
      exact ihn parent ms n0 em0 _ hre2 h0 hbound
    · have hex2 : excludedTest cfg (joinPath parent name)
          ⟨name, true, sym, gitign⟩ (extendB cfg ⟨name, true, sym, gitign⟩ ms)
          = false := by simpa using hex
      cases sym with
      | true =>
        rw [stepB_dir_sym hex2]
        simp only [matchingFiles, hex2, Bool.false_eq_true, if_false, if_true,
          List.nil_append] at hbound ⊢
        exact ihn parent ms n0 em0 _ hre2 h0 hbound
      | false =>
        rw [stepB_dir_desc hex2]
        simp only [matchingFiles, hex2, Bool.false_eq_true, if_false,
          List.length_append] at hbound ⊢
        obtain ⟨c1, c2, c3⟩ := ihc (joinPath parent name)
          (extendB cfg ⟨name, true, false, gitign⟩ ms) n0 em0
          (vis0 ++ [joinPath parent name]) hrec h0
          (by push_cast at hbound ⊢; omega)
        have hX : (walkList (walkFnB cfg) (joinPath parent name) children
              (extendB cfg ⟨name, true, false, gitign⟩ ms)
              ⟨n0, em0, vis0 ++ [joinPath parent name]⟩).2 =
            ⟨(walkList (walkFnB cfg) (joinPath parent name) children
                (extendB cfg ⟨name, true, false, gitign⟩ ms)
                ⟨n0, em0, vis0 ++ [joinPath parent name]⟩).2.n,
              (walkList (walkFnB cfg) (joinPath parent name) children
                (extendB cfg ⟨name, true, false, gitign⟩ ms)
                ⟨n0, em0, vis0 ++ [joinPath parent name]⟩).2.emitted,
              (walkList (walkFnB cfg) (joinPath parent name) children
                (extendB cfg ⟨name, true, false, gitign⟩ ms)
                ⟨n0, em0, vis0 ++ [joinPath parent name]⟩).2.visited⟩ := rfl
        rw [c2, c3] at hX
        rw [hX]
        obtain ⟨n1, n2, n3⟩ := ihn parent ms
          (n0 + ((matchingFiles cfg (joinPath parent name) children
            (extendB cfg ⟨name, true, false, gitign⟩ ms)).length : Int))
          (em0 ++ List.take (cfg.maxcount - n0).toNat
            (matchingFiles cfg (joinPath parent name) children
              (extendB cfg ⟨name, true, false, gitign⟩ ms)))
          ((walkList (walkFnB cfg) (joinPath parent name) children
            (extendB cfg ⟨name, true, false, gitign⟩ ms)
            ⟨n0, em0, vis0 ++ [joinPath parent name]⟩).2.visited)
          hre2 (by omega) (by push_cast at hbound ⊢; omega)
        refine ⟨?_, ?_, ?_⟩
        · rw [n1, c1]
          by_cases hn : 1 ≤ (matchingFiles cfg parent next ms).length ∧
              cfg.maxcount <
                n0 + ((matchingFiles cfg (joinPath parent name) children
                  (extendB cfg ⟨name, true, false, gitign⟩ ms)).length : Int) +
                  ((matchingFiles cfg parent next ms).length : Int)
          · have hC2 : 1 ≤ (matchingFiles cfg (joinPath parent name) children
                  (extendB cfg ⟨name, true, false, gitign⟩ ms)).length +
                  (matchingFiles cfg parent next ms).length ∧
                cfg.maxcount <
                  n0 + (((matchingFiles cfg (joinPath parent name) children
                    (extendB cfg ⟨name, true, false, gitign⟩ ms)).length +
                    (matchingFiles cfg parent next ms).length : ℕ) : Int) :=
              ⟨by omega, by push_cast; omega⟩
            rw [if_pos hn, if_pos hC2]
            rfl
          · rw [if_neg hn]
            simp only [Option.isSome_none, Bool.false_eq_true, if_false]
            exact if_congr (by push_cast; omega) rfl rfl
        · rw [n2]
          push_cast
          ring
        · rw [n3]
          rw [List.take_append_eq_append_take]
          have ht : (cfg.maxcount - n0).toNat -
              (matchingFiles cfg (joinPath parent name) children
                (extendB cfg ⟨name, true, false, gitign⟩ ms)).length =
              (cfg.maxcount - (n0 + ((matchingFiles cfg (joinPath parent name)
                children (extendB cfg ⟨name, true, false, gitign⟩ ms)).length
                : Int))).toNat := by omega
          rw [ht]
          simp [List.append_assoc]

theorem walkFnU_dir (cfg : Config) (path name : String) (sym : Bool)
    (g : Option Matcher) (ms : ignoreMatchers) (st : WState) :
    walkFnU cfg path ⟨name, true, sym, g⟩ ms st =
      if excludedTest cfg path ⟨name, true, sym, g⟩
          (extendU cfg ⟨name, true, sym, g⟩ ms) then
        (extendU cfg ⟨name, true, sym, g⟩ ms, some GoErr.skipDir, st)
      else (extendU cfg ⟨name, true, sym, g⟩ ms, none, st) := by
  simp only [walkFnU]
  split <;> rfl

theorem combine_assoc (a b c : Option GoErr) :
    (if (if c.isSome then c else b).isSome then (if c.isSome then c else b)
      else a) = (if c.isSome then c else if b.isSome then b else a) := by
  cases c <;> cases b <;> simp

/-- Splitting a sibling chain: the walk of `cs ++ ds` equals the walk of
`cs` followed by the walk of `ds` from the state `cs` left behind, and the
error reported is the one of `ds` when there is one, otherwise the one of
`cs` — the Go loop keeps `ferr = err` for every failing child, so the last
sibling error wins and every sibling still runs. -/
theorem walkList_append (wf : WalkFn) (parent : String) (cs : FS) :
    ∀ (ds : FS) (ms : ignoreMatchers) (st : WState),
    walkList wf parent (chainAppend cs ds) ms st =
      ((if (walkList wf parent ds ms
            (walkList wf parent cs ms st).2).1.isSome
        then (walkList wf parent ds ms (walkList wf parent cs ms st).2).1
        else (walkList wf parent cs ms st).1),
        (walkList wf parent ds ms (walkList wf parent cs ms st).2).2) := by
  induction cs with
  | fnil =>
    intro ds ms st
    simp only [chainAppend, walkList, ifSome_self]
  | ffile name sym next ih =>
    intro ds ms st
    simp only [chainAppend, walkList, ih, combine_assoc]
  | fdir name sym g re children next ihc ihn =>
    intro ds ms st
    simp only [chainAppend, walkList, ihn, combine_assoc]

/-- Claim C1: on the spec scenario (`sub/.gitignore` holding `*.log`, files
`sub/x.log` and `sub/y.txt`, scoped-ignore enabled) the bounded variant
tests entries against the extended context and emits exactly `sub/y.txt`;
the unbounded variant leaves `newMatchers` nil for non-directory entries
(the empty else branch, files.go:380-381), so the scoped rule never excludes
a file and `sub/x.log` is emitted as well, although the active context does
match it — the stated exclusion test is violated by the unbounded
variant. -/
theorem scopedIgnore_scenario :
    (filesAsyncB ⟨true, -1, fun s => s == ".git"⟩ []
      (.fdir "." false none none
        (.fdir "sub" false (some fun p _ => strEndsWith p ".log") none
          (.ffile "x.log" false (.ffile "y.txt" false .fnil)) .fnil)
        .fnil)).2.emitted = ["sub/y.txt"] ∧
    (filesAsyncU ⟨true, -1, fun s => s == ".git"⟩ []
      (.fdir "." false none none
        (.fdir "sub" false (some fun p _ => strEndsWith p ".log") none
          (.ffile "x.log" false (.ffile "y.txt" false .fnil)) .fnil)
        .fnil)).2.emitted = ["sub/x.log", "sub/y.txt"] ∧
    ignoreMatchers.Match [some fun p _ => strEndsWith p ".log"] "sub/x.log"
      false = true :=
  ⟨by decide, by decide, by decide⟩

/-- Claim C3: three chained `append` extensions starting from the nil slice
produce an inherited context of length 3 and capacity 4; two sibling
directories extending that same slice value both write backing cell 3 in
place, so the first sibling's extended context ends up reading the second
sibling's matcher — the inherited value's storage is mutated.  The
copy-on-extend of the unbounded variant allocates fresh arrays and the first
sibling's context is unaffected by the second's extension. -/
theorem append_aliasing :
    goAppend [] ⟨0, 0, 0⟩ "m1" = ([[some "m1"]], ⟨0, 1, 1⟩) ∧
    goAppend [[some "m1"]] ⟨0, 1, 1⟩ "m2" =
      ([[some "m1"], [some "m1", some "m2"]], ⟨1, 2, 2⟩) ∧
    goAppend [[some "m1"], [some "m1", some "m2"]] ⟨1, 2, 2⟩ "m3" =
      ([[some "m1"], [some "m1", some "m2"],
        [some "m1", some "m2", some "m3", none]], ⟨2, 3, 4⟩) ∧
    goAppend [[some "m1"], [some "m1", some "m2"],
        [some "m1", some "m2", some "m3", none]] ⟨2, 3, 4⟩ "mC" =
      ([[some "m1"], [some "m1", some "m2"],
        [some "m1", some "m2", some "m3", some "mC"]], ⟨2, 4, 4⟩) ∧
    goAppend [[some "m1"], [some "m1", some "m2"],
        [some "m1", some "m2", some "m3", some "mC"]] ⟨2, 3, 4⟩ "mD" =
      ([[some "m1"], [some "m1", some "m2"],
        [some "m1", some "m2", some "m3", some "mD"]], ⟨2, 4, 4⟩) ∧
    readSlice [[some "m1"], [some "m1", some "m2"],
        [some "m1", some "m2", some "m3", some "mD"]] ⟨2, 4, 4⟩ =
      [some "m1", some "m2", some "m3", some "mD"] ∧
    copyExtend [[some "m1"], [some "m1", some "m2"],
        [some "m1", some "m2", some "m3", none]] ⟨2, 3, 4⟩ "mC" =
      ([[some "m1"], [some "m1", some "m2"],
        [some "m1", some "m2", some "m3", none],
        [some "m1", some "m2", some "m3", some "mC"]], ⟨3, 4, 4⟩) ∧
    copyExtend [[some "m1"], [some "m1", some "m2"],
        [some "m1", some "m2", some "m3", none],
        [some "m1", some "m2", some "m3", some "mC"]] ⟨2, 3, 4⟩ "mD" =
      ([[some "m1"], [some "m1", some "m2"],
        [some "m1", some "m2", some "m3", none],
        [some "m1", some "m2", some "m3", some "mC"],
        [some "m1", some "m2", some "m3", some "mD"]], ⟨4, 4, 4⟩) ∧
    readSlice [[some "m1"], [some "m1", some "m2"],
        [some "m1", some "m2", some "m3", none],
        [some "m1", some "m2", some "m3", some "mC"],
        [some "m1", some "m2", some "m3", some "mD"]] ⟨3, 4, 4⟩ =
      [some "m1", some "m2", some "m3", some "mC"] :=
  ⟨by decide, by decide, by decide, by decide, by decide, by decide,
    by decide, by decide, by decide⟩

/-- Claim C9: the counter increment is an unsynchronised read-modify-write
(the source's own comment: "This is pseudo handling because this is not
atomic"), so two concurrent emits may interleave read-read-write-write and
lose an update: both serial schedules leave the counter at 2, the racy
interleaving at 1, so the overflow comparison can run against a stale
count. -/
theorem counter_race_lost_update :
    runCtr [.read false, .read true, .write false, .write true]
      (fun _ => 0) 0 = 1 ∧
    runCtr [.read false, .write false, .read true, .write true]
      (fun _ => 0) 0 = 2 ∧
    (1 : Int) ≠ 2 :=
  ⟨by decide, by decide, by decide⟩

/-- Claim C4 counterexample: a directory whose two children fail with
distinct listing errors returns the error of the second child — the first
error observed among the siblings (errA, as the walk of the first child
alone shows) is not the one returned. -/
theorem firstError_counterexample :
    (walkList (walkFnB ⟨false, -1, fun _ => false⟩) ""
      (.fdir "r" false none none
        (.fdir "a" false none (some "errA") .fnil
          (.fdir "b" false none (some "errB") .fnil .fnil))
        .fnil) [] ⟨0, [], []⟩).1 = some (GoErr.ioError "errB") ∧
    (walkList (walkFnB ⟨false, -1, fun _ => false⟩) "r"
      (.fdir "a" false none (some "errA") .fnil .fnil) [] ⟨0, [], []⟩).1 =
      some (GoErr.ioError "errA") ∧
    some (GoErr.ioError "errB") ≠ some (GoErr.ioError "errA") :=
  ⟨by decide, by decide, by decide⟩

/-- Claim C4 (amended): when children of a directory fail, the parent
returns the last error observed among the siblings (each later child error
overwrites the earlier ones), and only after every sibling has been
traversed: the walk of a chain split as `cs ++ ds` runs `ds` from the state
`cs` left behind — an error in `cs` does not stop `ds` — and returns the
error of `ds` when there is one, otherwise the error of `cs`. -/
theorem walk_lastError_after_join (cfg : Config) (parent : String)
    (cs ds : FS) (ms : ignoreMatchers) (st : WState) :
    walkList (walkFnB cfg) parent (chainAppend cs ds) ms st =
      ((if (walkList (walkFnB cfg) parent ds ms
            (walkList (walkFnB cfg) parent cs ms st).2).1.isSome
        then (walkList (walkFnB cfg) parent ds ms
            (walkList (walkFnB cfg) parent cs ms st).2).1
        else (walkList (walkFnB cfg) parent cs ms st).1),
        (walkList (walkFnB cfg) parent ds ms
          (walkList (walkFnB cfg) parent cs ms st).2).2) :=
  walkList_append (walkFnB cfg) parent cs ds ms st

/-- Claim C5: an entry whose bare name matches the static ignore pattern is
never emitted; a matching directory is pruned: the walk returns success at
once, the state is unchanged except that the entry itself was visited, so
nothing beneath the directory is ever visited or emitted, and no error is
reported. -/
theorem staticIgnore_prune (cfg : Config) (parent name : String) (sym : Bool)
    (g : Option Matcher) (re : Option String) (children : FS)
    (ms : ignoreMatchers) (st : WState)
    (h : cfg.ignorere name = true) :
    walkList (walkFnB cfg) parent (.fdir name sym g re children .fnil) ms st =
      (none, { st with visited := st.visited ++ [joinPath parent name] }) ∧
    walkList (walkFnB cfg) parent (.ffile name sym .fnil) ms st =
      (none, { st with visited := st.visited ++ [joinPath parent name] }) := by
  obtain ⟨n0, em0, vis0⟩ := st
  constructor
  · rw [stepB_dir_ex (by simp [excludedTest, h])]
    simp [walkList]
  · rw [stepB_file_ex (by simp [excludedTest, h])]
    simp [walkList]

/-- Claim C5 witness at the default static pattern and a `.git` directory
holding a config file. -/
theorem staticIgnore_prune_witness :
    walkList (walkFnB ⟨false, -1, fun s => s == ".git"⟩) ""
      (.fdir ".git" false none none (.ffile "config" false .fnil) .fnil) []
      ⟨0, [], []⟩ = (none, ⟨0, [], [".git"]⟩) ∧
    walkList (walkFnB ⟨false, -1, fun s => s == ".git"⟩) ""
      (.ffile ".git" false .fnil) [] ⟨0, [], []⟩ =
      (none, ⟨0, [], [".git"]⟩) :=
  staticIgnore_prune ⟨false, -1, fun s => s == ".git"⟩ "" ".git" false none
    none (.ffile "config" false .fnil) [] ⟨0, [], []⟩ (by decide)

/-- Claim C6: a symlink entry is never listed: the walk applies the
classifier to the entry itself and returns without reading a directory
beneath it, so a symlinked directory contributes exactly its own visit and
nothing else (it is still matched by name: when excluded the outcome is the
same); a symlink file likewise only visits itself. -/
theorem symlink_no_descent (cfg : Config) (parent name : String)
    (g : Option Matcher) (re : Option String) (children : FS)
    (ms : ignoreMatchers) (st : WState) :
    walkList (walkFnB cfg) parent (.fdir name true g re children .fnil) ms st =
      (none, { st with visited := st.visited ++ [joinPath parent name] }) ∧
    (walkList (walkFnB cfg) parent (.ffile name true .fnil) ms st).2.visited =
      st.visited ++ [joinPath parent name] := by
  obtain ⟨n0, em0, vis0⟩ := st
  constructor
  · by_cases hex : excludedTest cfg (joinPath parent name)
        ⟨name, true, true, g⟩ (extendB cfg ⟨name, true, true, g⟩ ms) = true
    · rw [stepB_dir_ex hex]
      simp [walkList]
    · rw [stepB_dir_sym (by simpa using hex)]
      simp [walkList]
  · by_cases hex : excludedTest cfg (joinPath parent name)
        ⟨name, false, true, none⟩ ms = true
    · rw [stepB_file_ex hex]
      simp [walkList]
    · by_cases hov : cfg.maxcount < wrap64 (n0 + 1)
      · rw [stepB_file_over (by simpa using hex) hov]
        simp [walkList]
      · rw [stepB_file_push (by simpa using hex) hov]
        simp [walkList]

/-- Claim C2: with `-M` set to `k ≥ 1` and a readable tree holding more
than `k` matching regular files (fewer than `2^63`, so the int64 counter
cannot wrap), the walk terminates with the distinguishable overflow error
`maxError` and at most `k` paths are pushed on the stream; an emit whose
incremented counter exceeds `maxcount` returns `maxError` without pushing
its path; with the unbounded sentinel (`maxfiles ≤ 0`) every matching file
is emitted and no error is reported. -/
theorem maxfiles_overflow_bound :
    (∀ (cfg : Config) (k : Int) (globalMs : ignoreMatchers) (root : FS),
      cfg.maxfiles = k → 1 ≤ k → noReadErr root = true →
      k < ((matchingFiles cfg "" root globalMs).length : Int) →
      ((matchingFiles cfg "" root globalMs).length : Int) ≤ 2 ^ 63 - 1 →
      (filesAsyncB cfg globalMs root).1 = some GoErr.maxError ∧
        ((filesAsyncB cfg globalMs root).2.emitted.length : Int) ≤ k) ∧
    (∀ (cfg : Config) (path : String) (ms : ignoreMatchers) (st : WState),
      cfg.maxcount < wrap64 (st.n + 1) →
      emitStep cfg path ms st =
        (ms, some GoErr.maxError, { st with n := wrap64 (st.n + 1) })) ∧
    (∀ (cfg : Config) (globalMs : ignoreMatchers) (root : FS),
      cfg.maxfiles ≤ 0 → noReadErr root = true →
      ((matchingFiles cfg "" root globalMs).length : Int) ≤ 2 ^ 63 - 1 →
      (filesAsyncB cfg globalMs root).1 = none ∧
        (filesAsyncB cfg globalMs root).2.emitted =
          matchingFiles cfg "" root globalMs) := by
  refine ⟨?_, ?_, ?_⟩
  · intro cfg k globalMs root hk h1 hre hlen hbound
    have hmax : cfg.maxcount = k := by
      rw [Config.maxcount, hk, if_pos (by omega)]
    obtain ⟨e1, e2, e3⟩ :=
      walkB_char cfg root "" globalMs 0 [] [] hre le_rfl (by omega)
    constructor
    · show (walkList (walkFnB cfg) "" root globalMs ⟨0, [], []⟩).1 = _
      rw [e1, if_pos ⟨by omega, by rw [hmax]; omega⟩]
    · show ((walkList (walkFnB cfg) "" root globalMs
        ⟨0, [], []⟩).2.emitted.length : Int) ≤ k
      rw [e3]
      simp only [List.nil_append, List.length_take]
      rw [hmax]
      omega
  · intro cfg path ms st hov
    simp only [emitStep, if_pos hov]
  · intro cfg globalMs root hk hre hbound
    have hmax : cfg.maxcount = 2 ^ 63 - 1 := by
      rw [Config.maxcount, if_neg (by omega)]
    obtain ⟨e1, e2, e3⟩ :=
      walkB_char cfg root "" globalMs 0 [] [] hre le_rfl (by omega)
    constructor
    · show (walkList (walkFnB cfg) "" root globalMs ⟨0, [], []⟩).1 = none
      rw [e1, if_neg ?_]
      rintro ⟨h1, h2⟩
      rw [hmax] at h2
      omega
    · show (walkList (walkFnB cfg) "" root globalMs ⟨0, [], []⟩).2.emitted = _
      rw [e3, hmax, List.take_of_length_le (by omega), List.nil_append]

/-- Claim C2 witness: `-M 2` over a directory with three plain files
overflows with two paths on the stream; the sentinel `-M -1` emits all
three. -/
theorem maxfiles_overflow_bound_witness :
    ((filesAsyncB ⟨false, 2, fun _ => false⟩ []
        (.fdir "d" false none none
          (.ffile "a" false (.ffile "b" false (.ffile "c" false .fnil)))
          .fnil)).1 = some GoErr.maxError ∧
      ((filesAsyncB ⟨false, 2, fun _ => false⟩ []
        (.fdir "d" false none none
          (.ffile "a" false (.ffile "b" false (.ffile "c" false .fnil)))
          .fnil)).2.emitted.length : Int) ≤ 2) ∧
    emitStep ⟨false, 2, fun _ => false⟩ "p" [] ⟨2, [], []⟩ =
      ([], some GoErr.maxError, ⟨wrap64 (2 + 1), [], []⟩) ∧
    ((filesAsyncB ⟨false, -1, fun _ => false⟩ []
        (.fdir "d" false none none
          (.ffile "a" false (.ffile "b" false (.ffile "c" false .fnil)))
          .fnil)).1 = none ∧
      (filesAsyncB ⟨false, -1, fun _ => false⟩ []
        (.fdir "d" false none none
          (.ffile "a" false (.ffile "b" false (.ffile "c" false .fnil)))
          .fnil)).2.emitted =
        matchingFiles ⟨false, -1, fun _ => false⟩ ""
          (.fdir "d" false none none
            (.ffile "a" false (.ffile "b" false (.ffile "c" false .fnil)))
            .fnil) []) :=
  ⟨maxfiles_overflow_bound.1 ⟨false, 2, fun _ => false⟩ 2 []
      (.fdir "d" false none none
        (.ffile "a" false (.ffile "b" false (.ffile "c" false .fnil)))
        .fnil) rfl (by decide) (by decide) (by decide) (by decide),
    maxfiles_overflow_bound.2.1 ⟨false, 2, fun _ => false⟩ "p" [] ⟨2, [], []⟩
      (by decide),
    maxfiles_overflow_bound.2.2 ⟨false, -1, fun _ => false⟩ []
      (.fdir "d" false none none
        (.ffile "a" false (.ffile "b" false (.ffile "c" false .fnil)))
        .fnil) (by decide) (by decide) (by decide)⟩

/-- Claim C7 counterexample: a nil matcher slot makes `Match` return false
at once, before consulting the later matchers, so a set holding a matching
matcher answers false and swapping the slots changes the answer. -/
theorem matchOrder_counterexample :
    ignoreMatchers.Match [none, some fun _ _ => true] "a" false = false ∧
    ignoreMatchers.Match [some fun _ _ => true, none] "a" false = true :=
  ⟨rfl, rfl⟩

/-- Claim C7 (amended): the empty set never matches; for matcher sets with
no nil slot, `Match` answers true exactly when some contained matcher
matches, and any permutation of such a set answers the same. -/
theorem match_or_spec :
    (∀ (p : String) (d : Bool), ignoreMatchers.Match [] p d = false) ∧
    (∀ (l : ignoreMatchers) (p : String) (d : Bool),
      (∀ o ∈ l, o.isSome = true) →
      (ignoreMatchers.Match l p d = true ↔ ∃ f, some f ∈ l ∧ f p d = true)) ∧
    (∀ (l1 l2 : ignoreMatchers) (p : String) (d : Bool),
      (∀ o ∈ l1, o.isSome = true) → l1.Perm l2 →
      ignoreMatchers.Match l1 p d = ignoreMatchers.Match l2 p d) := by
  have key : ∀ (l : ignoreMatchers) (p : String) (d : Bool),
      (∀ o ∈ l, o.isSome = true) →
      (ignoreMatchers.Match l p d = true ↔
        ∃ f, some f ∈ l ∧ f p d = true) := by
    intro l p d
    induction l with
    | nil =>
      intro hl
      simp [ignoreMatchers.Match]
    | cons o rest ih =>
      intro hl
      obtain ⟨m, rfl⟩ :=
        Option.isSome_iff_exists.mp (hl o (List.mem_cons_self o rest))
      by_cases hm : m p d = true
      · constructor
        · intro _
          exact ⟨m, List.mem_cons_self _ _, hm⟩
        · intro _
          simp [ignoreMatchers.Match, hm]
      · have hrest := ih (fun o ho => hl o (List.mem_cons_of_mem _ ho))
        constructor
        · intro h
          have h2 : ignoreMatchers.Match rest p d = true := by
            simpa [ignoreMatchers.Match, hm] using h
          obtain ⟨f, hf1, hf2⟩ := hrest.mp h2
          exact ⟨f, List.mem_cons_of_mem _ hf1, hf2⟩
        · rintro ⟨f, hf1, hf2⟩
          rcases List.mem_cons.mp hf1 with he | hmem
          · obtain rfl : f = m := Option.some.inj he
            exact absurd hf2 hm
          · have h2 := hrest.mpr ⟨f, hmem, hf2⟩
            simpa [ignoreMatchers.Match, hm] using h2
  refine ⟨fun p d => rfl, key, ?_⟩
  intro l1 l2 p d h1 hperm
  have h2 : ∀ o ∈ l2, o.isSome = true := fun o ho => h1 o (hperm.symm.subset ho)
  have e1 := key l1 p d h1
  have e2 := key l2 p d h2
  cases hb1 : ignoreMatchers.Match l1 p d with
  | true =>
    obtain ⟨f, hf1, hf2⟩ := e1.mp hb1
    exact (e2.mpr ⟨f, hperm.subset hf1, hf2⟩).symm
  | false =>
    cases hb2 : ignoreMatchers.Match l2 p d with
    | false => rfl
    | true =>
      obtain ⟨f, hf1, hf2⟩ := e2.mp hb2
      have h3 := e1.mpr ⟨f, hperm.symm.subset hf1, hf2⟩
      rw [hb1] at h3
      simp at h3

/-- Claim C7 witness: the three amended statements at concrete matcher
sets. -/
theorem match_or_spec_witness :
    ignoreMatchers.Match [] "a" false = false ∧
    (ignoreMatchers.Match [some fun p _ => p == "a"] "a" false = true ↔
      ∃ f, some f ∈ ([some fun p _ => p == "a"] : ignoreMatchers) ∧
        f "a" false = true) ∧
    ignoreMatchers.Match [some fun _ _ => true, some fun _ _ => false] "x"
        false =
      ignoreMatchers.Match [some fun _ _ => false, some fun _ _ => true] "x"
        false :=
  ⟨match_or_spec.1 "a" false,
    match_or_spec.2.1 [some fun p _ => p == "a"] "a" false (by decide),
    match_or_spec.2.2 _ _ "x" false (by decide) (List.Perm.swap _ _ _)⟩

/-- Claim C8: on entering a readable, non-excluded directory whose rule
file is missing or fails to parse, both variants extend the context by
nothing — the matcher set passed to the children is the inherited one
unchanged — and the traversal of the directory proceeds normally over its
children. -/
theorem ruleFile_missing_noop (cfg : Config) (parent name : String)
    (children : FS) (ms : ignoreMatchers) (st : WState)
    (hg : cfg.careGitignore = true)
    (hex2 : excludedTest cfg (joinPath parent name) ⟨name, true, false, none⟩
      ms = false) :
    extendB cfg ⟨name, true, false, none⟩ ms = ms ∧
    extendU cfg ⟨name, true, false, none⟩ ms = ms ∧
    walkList (walkFnB cfg) parent (.fdir name false none none children .fnil)
        ms st =
      walkList (walkFnB cfg) (joinPath parent name) children ms
        { st with visited := st.visited ++ [joinPath parent name] } ∧
    walkList (walkFnU cfg) parent (.fdir name false none none children .fnil)
        ms st =
      walkList (walkFnU cfg) (joinPath parent name) children ms
        { st with visited := st.visited ++ [joinPath parent name] } := by
  have heB : extendB cfg ⟨name, true, false, none⟩ ms = ms := by
    simp [extendB, hg]
  have heU : extendU cfg ⟨name, true, false, none⟩ ms = ms := by
    simp [extendU, hg]
  refine ⟨heB, heU, ?_, ?_⟩
  · simp only [walkList, walkFnB_dir, heB, hex2, Bool.false_eq_true, if_false,
      ifSome_self, Option.isSome_none, Prod.mk.eta]
  · simp only [walkList, walkFnU_dir, heU, hex2, Bool.false_eq_true, if_false,
      ifSome_self, Option.isSome_none, Prod.mk.eta]

/-- Claim C8 witness: a directory `d` with no parsable rule file, scoped
processing on. -/
theorem ruleFile_missing_noop_witness :
    extendB ⟨true, -1, fun _ => false⟩ ⟨"d", true, false, none⟩ [] = [] ∧
    extendU ⟨true, -1, fun _ => false⟩ ⟨"d", true, false, none⟩ [] = [] ∧
    walkList (walkFnB ⟨true, -1, fun _ => false⟩) ""
        (.fdir "d" false none none (.ffile "a" false .fnil) .fnil) []
        ⟨0, [], []⟩ =
      walkList (walkFnB ⟨true, -1, fun _ => false⟩) "d"
        (.ffile "a" false .fnil) [] ⟨0, [], ["d"]⟩ ∧
    walkList (walkFnU ⟨true, -1, fun _ => false⟩) ""
        (.fdir "d" false none none (.ffile "a" false .fnil) .fnil) []
        ⟨0, [], []⟩ =
      walkList (walkFnU ⟨true, -1, fun _ => false⟩) "d"
        (.ffile "a" false .fnil) [] ⟨0, [], ["d"]⟩ :=
  ruleFile_missing_noop ⟨true, -1, fun _ => false⟩ "" "d"
    (.ffile "a" false .fnil) [] ⟨0, [], []⟩ rfl (by decide)

/-- Claim C10: the emit branch applies to every non-directory entry, so a
non-excluded symlink is pushed on the stream exactly like a regular file —
the walk result does not depend on the symlink flag of a file entry — and
the stream may therefore carry paths that are not regular files, including
symlinks whose target is a directory (under `Lstat` those are non-directory
entries). -/
theorem symlink_emitted (cfg : Config) (parent name : String)
    (ms : ignoreMatchers) (st : WState)
    (hex : excludedTest cfg (joinPath parent name) ⟨name, false, true, none⟩
      ms = false)
    (hov : ¬ cfg.maxcount < wrap64 (st.n + 1)) :
    walkList (walkFnB cfg) parent (.ffile name true .fnil) ms st =
      walkList (walkFnB cfg) parent (.ffile name false .fnil) ms st ∧
    walkList (walkFnB cfg) parent (.ffile name true .fnil) ms st =
      (none, ⟨wrap64 (st.n + 1), st.emitted ++ [joinPath parent name],
        st.visited ++ [joinPath parent name]⟩) := by
  obtain ⟨n0, em0, vis0⟩ := st
  have hex0 : excludedTest cfg (joinPath parent name)
      ⟨name, false, false, none⟩ ms = false := hex
  constructor
  · rw [stepB_file_push hex hov, stepB_file_push hex0 hov]
  · rw [stepB_file_push hex hov]
    simp [walkList]

/-- Claim C10 witness: a non-excluded symlink named `ln` is emitted. -/
theorem symlink_emitted_witness :
    walkList (walkFnB ⟨false, -1, fun _ => false⟩) ""
        (.ffile "ln" true .fnil) [] ⟨0, [], []⟩ =
      walkList (walkFnB ⟨false, -1, fun _ => false⟩) ""
        (.ffile "ln" false .fnil) [] ⟨0, [], []⟩ ∧
    walkList (walkFnB ⟨false, -1, fun _ => false⟩) ""
        (.ffile "ln" true .fnil) [] ⟨0, [], []⟩ =
      (none, ⟨wrap64 (0 + 1), [] ++ ["ln"], [] ++ ["ln"]⟩) :=
  symlink_emitted ⟨false, -1, fun _ => false⟩ "" "ln" [] ⟨0, [], []⟩
    (by decide) (by decide)
